import Mathlib

/-!
Verification of the ReaPack transaction engine against its natural-language
specification.  The definitions below are a shallow embedding of the C++
sources (`src/index.cpp`, `src/transaction.cpp`, `src/download.cpp`,
`src/package.hpp` and the behaviour pinned by `test/package.cpp`).
Pointer identity between parent and child objects (`Category::index()`,
`Package::category()`) is modelled by numeric identifiers.
-/

namespace ReaPack

/-! ## Version names

Modelled from the spec: the implementation of `VersionName` comparison
(`version.cpp`) is not part of the sources; per the spec it is a
numeric-segment comparison ("1.10" > "1.9", not lexicographic on strings).
A version string is split on `.` and the segments are compared
left-to-right as natural numbers. -/

/-- Split a character list on `'.'` separators. -/
def segChars : List Char → List (List Char)
  | [] => [[]]
  | c :: rest =>
    if c = '.' then [] :: segChars rest
    else
      match segChars rest with
      | [] => [[c]]
      | seg :: segs => (c :: seg) :: segs

/-- Numeric value of one segment; non-numeric segments count as 0. -/
def segToNat (cs : List Char) : Nat :=
  if cs.all Char.isDigit then cs.foldl (fun n c => n * 10 + (c.toNat - 48)) 0
  else 0

/-- Numeric segments of a version string: `"1.10"` becomes `[1, 10]`. -/
def segArr (s : String) : List Nat :=
  (segChars s.toList).map segToNat

/-- Left-to-right comparison of numeric segment lists; a proper
initial run of segments counts as smaller (`[1] < [1, 0]`). -/
def ltSegs : List Nat → List Nat → Bool
  | [], [] => false
  | [], _ :: _ => true
  | _ :: _, [] => false
  | a :: as, b :: bs =>
    if a < b then true
    else if b < a then false
    else ltSegs as bs

/-- Modelled from the spec: `VersionName` ordering is the numeric-segment
comparison of the two version strings. -/
def VersionName.lt (a b : String) : Bool :=
  ltSegs (segArr a) (segArr b)

/-! ## Index data model (index.cpp, package.hpp) -/

/-- One download origin of a version (`Source`); only the URL is relevant
to the verified claims. -/
structure Source where
  url : String
deriving DecidableEq, Repr

/-- A `Version`: name plus its list of sources. -/
structure Version where
  name : String
  sources : List Source
deriving DecidableEq, Repr

/-- `Package::Type` from package.hpp. -/
inductive PackageType
  | UnknownType
  | ScriptType
deriving DecidableEq, Repr

/-- A `Package`; `categoryId` models the `m_category` back-reference
(pointer identity modelled as a numeric id).  `versions` is the ordered
version set, kept sorted ascending by `VersionName.lt`. -/
structure Package where
  type : PackageType
  name : String
  categoryId : Nat
  versions : List Version
deriving DecidableEq, Repr

/-- Modelled from the spec: `Package::ConvertType` (package.cpp is not in
the sources); `"script"` maps to `ScriptType`, anything else to
`UnknownType`, as pinned by test/package.cpp. -/
def Package.convertType (s : String) : PackageType :=
  if s = "script" then PackageType.ScriptType else PackageType.UnknownType

/-- Ordered-set insertion by `VersionName.lt`; inserting a version whose
name compares equal to an existing one keeps the existing element
(`std::set` semantics). -/
def insertVersion (v : Version) : List Version → List Version
  | [] => [v]
  | x :: xs =>
    if VersionName.lt v.name x.name then v :: x :: xs
    else if VersionName.lt x.name v.name then x :: insertVersion v xs
    else x :: xs

/-- Modelled from the spec: `Package::addVersion` (package.cpp is not in
the sources); a version with zero sources is dropped, otherwise it is
inserted into the ordered version set.  Behaviour pinned by
test/package.cpp ("drop empty version", "package versions are sorted"). -/
def Package.addVersion (p : Package) (v : Version) : Package :=
  if v.sources.isEmpty then p
  else { p with versions := insertVersion v p.versions }

/-- Last element of the ordered version list, `none` when empty. -/
def lastOf : List Version → Option Version
  | [] => none
  | [v] => some v
  | _ :: v :: rest => lastOf (v :: rest)

/-- Modelled from the spec: `Package::lastVersion` (package.cpp is not in
the sources) returns the greatest element of the ordered version set,
i.e. the last element of the ascending list, or null when empty. -/
def Package.lastVersion (p : Package) : Option Version :=
  lastOf p.versions

/-- A `Category`; `id` models the object's identity and `indexId` the
`m_index` back-reference. -/
structure Category where
  id : Nat
  name : String
  indexId : Nat
  packages : List Package
deriving DecidableEq, Repr

/-- `RemoteIndex::LinkType` from index.cpp. -/
inductive LinkType
  | WebsiteLink
  | DonationLink
deriving DecidableEq, Repr

/-- A website or donation link offered to `RemoteIndex::addLink`. -/
structure Link where
  name : String
  url : String
deriving DecidableEq, Repr

/-- A `RemoteIndex`; `id` models the object's identity. `packages` is the
flattened package list kept alongside `categories` (`m_packages` in
index.cpp). -/
structure RemoteIndex where
  id : Nat
  name : String
  categories : List Category
  packages : List Package
  links : List (LinkType × Link)
deriving DecidableEq, Repr

/-- `Category::addPackage` (index.cpp lines 154-165): raises an error when
the package's back-reference is another category, silently drops unknown
package types and packages with empty version sets, otherwise appends. -/
def Category.addPackage (c : Category) (pkg : Package) : Except String Category :=
  if pkg.categoryId ≠ c.id then
    Except.error "package belongs to another category"
  else if pkg.type = PackageType.UnknownType then
    Except.ok c
  else if pkg.versions.isEmpty then
    Except.ok c
  else
    Except.ok { c with packages := c.packages ++ [pkg] }

/-- `RemoteIndex::addCategory` (index.cpp lines 103-115): raises an error
when the category's back-reference is another index, silently drops empty
categories, otherwise appends the category and its packages. -/
def RemoteIndex.addCategory (ri : RemoteIndex) (cat : Category) :
    Except String RemoteIndex :=
  if cat.indexId ≠ ri.id then
    Except.error "category belongs to another index"
  else if cat.packages.isEmpty then
    Except.ok ri
  else
    Except.ok { ri with
      categories := ri.categories ++ [cat],
      packages := ri.packages ++ cat.packages }

/-- Character-list prefix test (`boost::algorithm::starts_with`). -/
def startsWithChars : List Char → List Char → Bool
  | _, [] => true
  | [], _ :: _ => false
  | c :: cs, p :: ps => c = p && startsWithChars cs ps

/-- String prefix test used by `RemoteIndex::addLink`. -/
def strStartsWith (s pat : String) : Bool :=
  startsWithChars s.toList pat.toList

/-- `RemoteIndex::addLink` (index.cpp lines 117-121): the link is kept
exactly when its URL starts with the literal string `"http"`. -/
def RemoteIndex.addLink (ri : RemoteIndex) (type : LinkType) (link : Link) :
    RemoteIndex :=
  if strStartsWith link.url "http" then { ri with links := ri.links ++ [(type, link)] }
  else ri

/-- Characters before the first `"://"` of a URL (the whole URL when it
has no `"://"`). -/
def schemeChars : List Char → List Char
  | [] => []
  | c :: rest =>
    if c = ':' ∧ rest.take 2 = ['/', '/'] then []
    else c :: schemeChars rest

/-- Scheme of a URL: the text before the first `"://"`. -/
def urlScheme (url : String) : String :=
  String.mk (schemeChars url.toList)

/-! ## Index parsing (RemoteIndex::load)

`RemoteIndex::load` (index.cpp lines 55-88) checks the root element and
the schema version, then hands over to the per-version loader.  The
input is modelled as the already-parsed XML element tree.  A version
attribute that is absent or not an integer leaves TinyXML's output
variable at 0, so it is modelled as `none`. -/

/-- A `<source>` element: its text content is the URL (mandatory). -/
structure XmlSource where
  url : Option String
deriving DecidableEq, Repr

/-- A `<version>` element. -/
structure XmlVersion where
  name : String
  sources : List XmlSource
deriving DecidableEq, Repr

/-- A `<reapack>` (package) element; `typeStr` is its `type` attribute. -/
structure XmlPackage where
  typeStr : String
  name : String
  versions : List XmlVersion
deriving DecidableEq, Repr

/-- A `<category>` element. -/
structure XmlCategory where
  name : String
  packages : List XmlPackage
deriving DecidableEq, Repr

/-- The root element of a downloaded index document. -/
structure XmlIndex where
  tag : String
  versionAttr : Option Int
  categories : List XmlCategory
deriving DecidableEq, Repr

/-- Modelled from the spec: the v1 loader reads each `<source>`; a source
missing its mandatory URL fails the whole parse. -/
def loadSources : List XmlSource → Except String (List Source)
  | [] => Except.ok []
  | s :: rest =>
    match s.url with
    | none => Except.error "missing source url"
    | some u =>
      match loadSources rest with
      | Except.error e => Except.error e
      | Except.ok tail => Except.ok (Source.mk u :: tail)

/-- Modelled from the spec: the v1 loader builds each version from its
sources and adds it to the package (`addVersion` drops zero-source
versions). -/
def loadVersionsInto (p : Package) : List XmlVersion → Except String Package
  | [] => Except.ok p
  | v :: rest =>
    match loadSources v.sources with
    | Except.error e => Except.error e
    | Except.ok srcs => loadVersionsInto (p.addVersion ⟨v.name, srcs⟩) rest

/-- Modelled from the spec: the v1 loader builds each package (with its
category back-reference) and hands it to `Category::addPackage`, which
silently drops unknown types and empty packages. -/
def loadPackagesInto (c : Category) : List XmlPackage → Except String Category
  | [] => Except.ok c
  | xp :: rest =>
    match loadVersionsInto
        (Package.mk (Package.convertType xp.typeStr) xp.name c.id [])
        xp.versions with
    | Except.error e => Except.error e
    | Except.ok pkg =>
      match c.addPackage pkg with
      | Except.error e => Except.error e
      | Except.ok c2 => loadPackagesInto c2 rest

/-- Modelled from the spec: the v1 loader builds each category (with its
index back-reference) and hands it to `RemoteIndex::addCategory`, which
silently drops empty categories. -/
def loadCategoriesInto (ri : RemoteIndex) :
    List XmlCategory → Except String RemoteIndex
  | [] => Except.ok ri
  | xc :: rest =>
    match loadPackagesInto (Category.mk 0 xc.name ri.id []) xc.packages with
    | Except.error e => Except.error e
    | Except.ok cat =>
      match ri.addCategory cat with
      | Except.error e => Except.error e
      | Except.ok ri2 => loadCategoriesInto ri2 rest

/-- Modelled from the spec: `loadV1` (index_v1.cpp is not in the
sources); constructs the `RemoteIndex` (whose constructor rejects an
empty name, index.cpp lines 90-95) and loads every category. -/
def loadV1 (name : String) (root : XmlIndex) : Except String RemoteIndex :=
  if name = "" then Except.error "empty index name"
  else loadCategoriesInto (RemoteIndex.mk 0 name [] [] []) root.categories

/-- `RemoteIndex::load` (index.cpp lines 55-88) over the parsed element
tree: reject a root tag other than `index`, a missing/zero version
attribute, and an unsupported schema version; version 1 is loaded by
`loadV1`. -/
def RemoteIndex.load (name : String) (root : XmlIndex) :
    Except String RemoteIndex :=
  if root.tag ≠ "index" then Except.error "invalid index"
  else
    let version := root.versionAttr.getD 0
    if version = 0 then Except.error "invalid version"
    else if version = 1 then loadV1 name root
    else Except.error "unsupported version"

/-- `Except` success recognizer. -/
def exOk {ε α : Type} : Except ε α → Bool
  | Except.ok _ => true
  | Except.error _ => false

/-- The source has its mandatory URL. -/
def srcOk (s : XmlSource) : Bool := s.url.isSome

/-- Every source of the version has its URL. -/
def verOk (v : XmlVersion) : Bool := v.sources.all srcOk

/-- Every source of the package has its URL. -/
def pkgOk (p : XmlPackage) : Bool := p.versions.all verOk

/-- Every source of the category has its URL. -/
def catOk (c : XmlCategory) : Bool := c.packages.all pkgOk

/-- Every source of the document has its URL. -/
def rootOk (r : XmlIndex) : Bool := r.categories.all catOk

/-! ## Transaction engine (transaction.cpp)

The orchestrator is embedded as a state machine over `TransactionState`.
Relative file paths are modelled as strings (the claims compare paths
only by equality).  External collaborators are abstracted: the
Registry's answer for a package and the on-disk presence of its files
(`Registry::query`, `file_exists`) appear as fields of a
`ResolvedPackage`, tasks are identified by numbers, and the commit,
rollback and observer calls are recorded in an event trace. -/

/-- `Registry::Entry::status`. -/
inductive RegStatus
  | UpToDate
  | UpdateAvailable
  | Uninstalled
  | Obsolete
deriving DecidableEq, Repr

/-- One transaction error record (`Transaction::addError`). -/
structure TError where
  message : String
  context : String
deriving DecidableEq, Repr

/-- Side effects of the transaction, in order of occurrence. -/
inductive Event
  | taskRollback (id : Nat)
  | taskCommit (id : Nat)
  | registryCommit
  | onFinish
  | onDestroy
  | queueAbort
deriving DecidableEq, Repr

/-- `Transaction`'s step enum (`m_step`). -/
inductive Step
  | Unknown
  | Synchronize
  | Install
deriving DecidableEq, Repr

/-- What resolution sees for one package of a loaded index: the file set
of its last version (`ver->files()`), the registry status of the package
(`m_registry->query`) and whether all its files are on disk
(`allFilesExists`). -/
structure ResolvedPackage where
  files : List String
  status : RegStatus
  allFilesExist : Bool
deriving DecidableEq, Repr

/-- The transaction working set: `m_step`, `m_isCancelled`,
`m_hasConflicts`, `m_files`, `m_errors`, `m_packages`, `m_tasks` (task
ids in creation order), the queue's idleness at observation points
(`m_queue.idle()`), the resolution input (abstracting the loaded remote
indexes and registry answers), and the emitted event trace. -/
structure TransactionState where
  step : Step
  isCancelled : Bool
  hasConflicts : Bool
  files : List String
  errors : List TError
  packages : List ResolvedPackage
  tasks : List Nat
  queueIdle : Bool
  pending : List ResolvedPackage
  events : List Event
deriving DecidableEq, Repr

/-- The conflict error recorded by `Transaction::registerFiles`. -/
def conflictError (path : String) : TError :=
  ⟨"Conflict: This file is owned by more than one package", path⟩

/-- `Transaction::finish` (transaction.cpp lines 212-225): when not
cancelled, commit every task in creation order then commit the registry;
always fire `onFinish` then `onDestroy`. -/
def finish (s : TransactionState) : TransactionState :=
  let s1 :=
    if s.isCancelled then s
    else { s with events :=
      s.events ++ s.tasks.map Event.taskCommit ++ [Event.registryCommit] }
  { s1 with events := s1.events ++ [Event.onFinish, Event.onDestroy] }

/-- `Transaction::addTask` (transaction.cpp lines 262-268): record the
task, then call `finish` when the download queue is idle. -/
def addTask (s : TransactionState) (id : Nat) : TransactionState :=
  let s1 := { s with tasks := s.tasks ++ [id] }
  if s1.queueIdle then finish s1 else s1

/-- Loop body of `Transaction::registerFiles`: a path already claimed in
`m_files` records a conflict error and sets `m_hasConflicts`. -/
def noteConflict (t : TransactionState) (path : String) : TransactionState :=
  if path ∈ t.files then
    { t with errors := t.errors ++ [conflictError path], hasConflicts := true }
  else t

/-- `Transaction::registerFiles` (transaction.cpp lines 247-260): record
a conflict error (and set `m_hasConflicts`) for every path of the list
already claimed in `m_files`, then add the whole list to `m_files`. -/
def registerFiles (s : TransactionState) (list : List String) :
    TransactionState :=
  let s1 := list.foldl noteConflict s
  { s1 with files := s1.files ++ list.filter (fun path => path ∉ s1.files) }

/-- `Transaction::install` (transaction.cpp lines 118-147): enter the
`Install` step and add one `InstallTask` per resolved candidate, in
order. -/
def install (s : TransactionState) : TransactionState :=
  let s1 := { s with step := Step.Install }
  (List.range s1.packages.length).foldl addTask s1

/-- Loop body of `Transaction::updateAll` for one package: register its
files, then skip it when it is up to date with all files present,
otherwise append it to the install candidates (downgrading an up-to-date
entry with missing files to `Uninstalled`). -/
def resolveStep (s : TransactionState) (pk : ResolvedPackage) :
    TransactionState :=
  let s1 := registerFiles s pk.files
  if pk.status = RegStatus.UpToDate then
    if pk.allFilesExist then s1
    else { s1 with packages :=
      s1.packages ++ [{ pk with status := RegStatus.Uninstalled }] }
  else { s1 with packages := s1.packages ++ [pk] }

/-- `Transaction::updateAll` (transaction.cpp lines 90-116): resolve
every package of every loaded index, then finish immediately when there
is nothing to install or a conflict was found, otherwise install. -/
def updateAll (s : TransactionState) : TransactionState :=
  let s1 := s.pending.foldl resolveStep s
  if s1.packages.isEmpty || s1.hasConflicts then finish s1 else install s1

/-- `Transaction::cancel` (transaction.cpp lines 176-187): mark
cancelled, roll back every task created so far, then finish immediately
when the queue is idle or request a queue abort. -/
def cancel (s : TransactionState) : TransactionState :=
  let s1 := { s with isCancelled := true }
  let s2 := { s1 with events := s1.events ++ s1.tasks.map Event.taskRollback }
  if s2.queueIdle then finish s2
  else { s2 with events := s2.events ++ [Event.queueAbort] }

/-- The `m_queue.onDone` callback installed by the constructor
(transaction.cpp lines 39-48): `updateAll` after the synchronize wave,
`finish` otherwise. -/
def onQueueDone (s : TransactionState) : TransactionState :=
  if s.step = Step.Synchronize then updateAll s else finish s

/-- Transaction working set at the start of a synchronize run's
resolution, with the given resolution input. -/
def initialState (pending : List ResolvedPackage) : TransactionState :=
  { step := Step.Synchronize, isCancelled := false, hasConflicts := false,
    files := [], errors := [], packages := [], tasks := [],
    queueIdle := true, pending := pending, events := [] }

/-- Recognizer for task-commit events. -/
def Event.isTaskCommit : Event → Bool
  | Event.taskCommit _ => true
  | _ => false

/-- Number of task commits (filesystem-mutating applies) in the trace. -/
def commitCount (s : TransactionState) : Nat :=
  s.events.countP Event.isTaskCommit

/-- Number of `onFinish` observer firings in the trace. -/
def onFinishCount (s : TransactionState) : Nat :=
  s.events.countP (fun e => e == Event.onFinish)

/-- Number of packages of the resolution input claiming a given path. -/
def claimCount (path : String) (l : List ResolvedPackage) : Nat :=
  l.countP (fun pk => decide (path ∈ pk.files))

/-- The fields of the working set that resolution bookkeeping
(`registerFiles` and the `updateAll` loop) never touches. -/
def sameCore (a b : TransactionState) : Prop :=
  a.tasks = b.tasks ∧ a.events = b.events ∧ a.isCancelled = b.isCancelled ∧
  a.step = b.step ∧ a.queueIdle = b.queueIdle ∧ a.pending = b.pending

/-! ## Download jobs (download.cpp) -/

/-- Terminal and transient states of a download job. -/
inductive DownloadState
  | Idle
  | Running
  | Success
  | Failure
  | Aborted
deriving DecidableEq, Repr

/-- Outcome of the actual network transfer (`curl_easy_perform`),
supplied by the environment when the transfer is performed. -/
inductive TransferOutcome
  | ok (data : String)
  | curlError (msg : String)
deriving DecidableEq, Repr

/-- A `Download` job: its abort flag, result state, received contents,
finish diagnostic, and whether a network transfer was started. -/
structure Download where
  name : String
  url : String
  aborted : Bool
  state : DownloadState
  contents : String
  finishMessage : String
  networkPerformed : Bool
deriving DecidableEq, Repr

/-- `Download::run` (download.cpp lines 123-162): when already aborted,
finish immediately as `Aborted` with no transfer; otherwise perform the
transfer and finish as `Aborted`, `Failure` or `Success`. -/
def Download.run (dl : Download) (transfer : TransferOutcome)
    (abortedDuringTransfer : Bool) : Download :=
  if dl.aborted then
    { dl with state := DownloadState.Aborted, finishMessage := "cancelled" }
  else
    let dl1 := { dl with networkPerformed := true }
    let dl2 :=
      match transfer with
      | TransferOutcome.ok data => { dl1 with contents := dl1.contents ++ data }
      | TransferOutcome.curlError _ => dl1
    if abortedDuringTransfer then
      { dl2 with state := DownloadState.Aborted,
                 finishMessage := "aborted by user" }
    else
      match transfer with
      | TransferOutcome.curlError msg =>
        { dl2 with state := DownloadState.Failure, finishMessage := msg }
      | TransferOutcome.ok _ =>
        { dl2 with state := DownloadState.Success }

/-- `a` strictly precedes `b` in the version ordering. -/
def versionBefore (a b : Version) : Prop :=
  VersionName.lt a.name b.name = true

theorem sameCore_refl (a : TransactionState) : sameCore a a :=
  ⟨rfl, rfl, rfl, rfl, rfl, rfl⟩

theorem sameCore_trans {a b c : TransactionState} (h1 : sameCore a b)
    (h2 : sameCore b c) : sameCore a c :=
  ⟨h1.1.trans h2.1, h1.2.1.trans h2.2.1, h1.2.2.1.trans h2.2.2.1,
   h1.2.2.2.1.trans h2.2.2.2.1, h1.2.2.2.2.1.trans h2.2.2.2.2.1,
   h1.2.2.2.2.2.trans h2.2.2.2.2.2⟩

theorem noteConflict_files (t : TransactionState) (path : String) :
    (noteConflict t path).files = t.files := by
  unfold noteConflict
  split_ifs <;> rfl

theorem noteConflict_core (t : TransactionState) (path : String) :
    sameCore (noteConflict t path) t := by
  unfold noteConflict
  split_ifs <;> exact sameCore_refl _

theorem noteConflict_errors_mono (t : TransactionState) (path : String)
    (e : TError) (h : e ∈ t.errors) : e ∈ (noteConflict t path).errors := by
  unfold noteConflict
  split_ifs
  · exact List.mem_append_left _ h
  · exact h

theorem noteConflict_conf_mono (t : TransactionState) (path : String)
    (h : t.hasConflicts = true) : (noteConflict t path).hasConflicts = true := by
  unfold noteConflict
  split_ifs <;> simp [h]

theorem noteConflict_hit (t : TransactionState) (path : String)
    (h : path ∈ t.files) :
    conflictError path ∈ (noteConflict t path).errors ∧
    (noteConflict t path).hasConflicts = true := by
  unfold noteConflict
  rw [if_pos h]
  exact ⟨List.mem_append_right _ (List.mem_singleton.mpr rfl), rfl⟩

theorem foldl_noteConflict_files : ∀ (l : List String) (t : TransactionState),
    (l.foldl noteConflict t).files = t.files
  | [], _ => rfl
  | p :: ps, t => by
    rw [List.foldl_cons, foldl_noteConflict_files ps, noteConflict_files]

theorem foldl_noteConflict_core : ∀ (l : List String) (t : TransactionState),
    sameCore (l.foldl noteConflict t) t
  | [], t => sameCore_refl t
  | p :: ps, t => by
    rw [List.foldl_cons]
    exact sameCore_trans (foldl_noteConflict_core ps (noteConflict t p))
      (noteConflict_core t p)

theorem foldl_noteConflict_errors_mono :
    ∀ (l : List String) (t : TransactionState) (e : TError),
    e ∈ t.errors → e ∈ (l.foldl noteConflict t).errors
  | [], _, _, h => h
  | p :: ps, t, e, h => by
    rw [List.foldl_cons]
    exact foldl_noteConflict_errors_mono ps (noteConflict t p) e
      (noteConflict_errors_mono t p e h)

theorem foldl_noteConflict_conf_mono :
    ∀ (l : List String) (t : TransactionState),
    t.hasConflicts = true → (l.foldl noteConflict t).hasConflicts = true
  | [], _, h => h
  | p :: ps, t, h => by
    rw [List.foldl_cons]
    exact foldl_noteConflict_conf_mono ps (noteConflict t p)
      (noteConflict_conf_mono t p h)

theorem foldl_noteConflict_hit :
    ∀ (l : List String) (t : TransactionState) (path : String),
    path ∈ t.files → path ∈ l →
    conflictError path ∈ (l.foldl noteConflict t).errors ∧
    (l.foldl noteConflict t).hasConflicts = true
  | [], _, _, _, hl => absurd hl (List.not_mem_nil _)
  | p :: ps, t, path, hf, hl => by
    rw [List.foldl_cons]
    rcases List.mem_cons.mp hl with rfl | hl
    · have hhit := noteConflict_hit t path hf
      exact ⟨foldl_noteConflict_errors_mono ps _ _ hhit.1,
             foldl_noteConflict_conf_mono ps _ hhit.2⟩
    · exact foldl_noteConflict_hit ps (noteConflict t p) path
        ((noteConflict_files t p).symm ▸ hf) hl

theorem registerFiles_files (s : TransactionState) (l : List String)
    (q : String) :
    q ∈ (registerFiles s l).files ↔ q ∈ s.files ∨ q ∈ l := by
  unfold registerFiles
  simp only [List.mem_append, List.mem_filter, foldl_noteConflict_files,
    decide_not, Bool.not_eq_true', decide_eq_false_iff_not]
  constructor
  · rintro (h | ⟨h, _⟩)
    · exact Or.inl h
    · exact Or.inr h
  · rintro (h | h)
    · exact Or.inl h
    · by_cases hq : q ∈ s.files
      · exact Or.inl hq
      · exact Or.inr ⟨h, hq⟩

theorem registerFiles_core (s : TransactionState) (l : List String) :
    sameCore (registerFiles s l) s :=
  foldl_noteConflict_core l s

theorem registerFiles_errors_mono (s : TransactionState) (l : List String)
    (e : TError) (h : e ∈ s.errors) : e ∈ (registerFiles s l).errors :=
  foldl_noteConflict_errors_mono l s e h

theorem registerFiles_conf_mono (s : TransactionState) (l : List String)
    (h : s.hasConflicts = true) : (registerFiles s l).hasConflicts = true :=
  foldl_noteConflict_conf_mono l s h

theorem registerFiles_hit (s : TransactionState) (l : List String)
    (path : String) (hf : path ∈ s.files) (hl : path ∈ l) :
    conflictError path ∈ (registerFiles s l).errors ∧
    (registerFiles s l).hasConflicts = true :=
  foldl_noteConflict_hit l s path hf hl

theorem resolveStep_errors (s : TransactionState) (pk : ResolvedPackage) :
    (resolveStep s pk).errors = (registerFiles s pk.files).errors := by
  unfold resolveStep
  split_ifs <;> rfl

theorem resolveStep_conf (s : TransactionState) (pk : ResolvedPackage) :
    (resolveStep s pk).hasConflicts = (registerFiles s pk.files).hasConflicts := by
  unfold resolveStep
  split_ifs <;> rfl

theorem resolveStep_files (s : TransactionState) (pk : ResolvedPackage) :
    (resolveStep s pk).files = (registerFiles s pk.files).files := by
  unfold resolveStep
  split_ifs <;> rfl

theorem resolveStep_core (s : TransactionState) (pk : ResolvedPackage) :
    sameCore (resolveStep s pk) s := by
  have h := registerFiles_core s pk.files
  unfold resolveStep
  split_ifs <;> exact h

theorem resolveStep_hit (s : TransactionState) (pk : ResolvedPackage)
    (path : String) (hf : path ∈ s.files) (hl : path ∈ pk.files) :
    conflictError path ∈ (resolveStep s pk).errors ∧
    (resolveStep s pk).hasConflicts = true := by
  rw [resolveStep_errors, resolveStep_conf]
  exact registerFiles_hit s pk.files path hf hl

theorem foldl_resolveStep_core :
    ∀ (l : List ResolvedPackage) (s : TransactionState),
    sameCore (l.foldl resolveStep s) s
  | [], s => sameCore_refl s
  | pk :: rest, s => by
    rw [List.foldl_cons]
    exact sameCore_trans (foldl_resolveStep_core rest (resolveStep s pk))
      (resolveStep_core s pk)

theorem foldl_resolveStep_errors_mono :
    ∀ (l : List ResolvedPackage) (s : TransactionState) (e : TError),
    e ∈ s.errors → e ∈ (l.foldl resolveStep s).errors
  | [], _, _, h => h
  | pk :: rest, s, e, h => by
    rw [List.foldl_cons]
    refine foldl_resolveStep_errors_mono rest (resolveStep s pk) e ?_
    rw [resolveStep_errors]
    exact registerFiles_errors_mono s pk.files e h

theorem foldl_resolveStep_conf_mono :
    ∀ (l : List ResolvedPackage) (s : TransactionState),
    s.hasConflicts = true → (l.foldl resolveStep s).hasConflicts = true
  | [], _, h => h
  | pk :: rest, s, h => by
    rw [List.foldl_cons]
    refine foldl_resolveStep_conf_mono rest (resolveStep s pk) ?_
    rw [resolveStep_conf]
    exact registerFiles_conf_mono s pk.files h

theorem foldl_resolveStep_hit_one :
    ∀ (l : List ResolvedPackage) (s : TransactionState) (path : String),
    path ∈ s.files → 1 ≤ claimCount path l →
    conflictError path ∈ (l.foldl resolveStep s).errors ∧
    (l.foldl resolveStep s).hasConflicts = true
  | [], _, _, _, hc => by simp [claimCount] at hc
  | pk :: rest, s, path, hf, hc => by
    rw [List.foldl_cons]
    by_cases hmem : path ∈ pk.files
    · have hhit := resolveStep_hit s pk path hf hmem
      exact ⟨foldl_resolveStep_errors_mono rest _ _ hhit.1,
             foldl_resolveStep_conf_mono rest _ hhit.2⟩
    · have hc' : 1 ≤ claimCount path rest := by
        simpa [claimCount, List.countP_cons, hmem] using hc
      refine foldl_resolveStep_hit_one rest (resolveStep s pk) path ?_ hc'
      rw [resolveStep_files]
      exact (registerFiles_files s pk.files path).mpr (Or.inl hf)

theorem foldl_resolveStep_hit_two :
    ∀ (l : List ResolvedPackage) (s : TransactionState) (path : String),
    2 ≤ claimCount path l →
    conflictError path ∈ (l.foldl resolveStep s).errors ∧
    (l.foldl resolveStep s).hasConflicts = true
  | [], _, _, hc => by simp [claimCount] at hc
  | pk :: rest, s, path, hc => by
    rw [List.foldl_cons]
    by_cases hmem : path ∈ pk.files
    · have hc' : 1 ≤ claimCount path rest := by
        unfold claimCount at hc ⊢
        rw [List.countP_cons] at hc
        simp only [hmem, decide_True, if_true] at hc
        omega
      refine foldl_resolveStep_hit_one rest (resolveStep s pk) path ?_ hc'
      rw [resolveStep_files]
      exact (registerFiles_files s pk.files path).mpr (Or.inr hmem)
    · have hc' : 2 ≤ claimCount path rest := by
        simpa [claimCount, List.countP_cons, hmem] using hc
      exact foldl_resolveStep_hit_two rest (resolveStep s pk) path hc'

theorem finish_fields (s : TransactionState) :
    (finish s).errors = s.errors ∧ (finish s).hasConflicts = s.hasConflicts ∧
    (finish s).step = s.step ∧ (finish s).tasks = s.tasks ∧
    (finish s).isCancelled = s.isCancelled ∧
    (finish s).queueIdle = s.queueIdle := by
  unfold finish
  split_ifs <;> exact ⟨rfl, rfl, rfl, rfl, rfl, rfl⟩

theorem finish_events_cancelled (s : TransactionState)
    (h : s.isCancelled = true) :
    (finish s).events = s.events ++ [Event.onFinish, Event.onDestroy] := by
  unfold finish
  rw [if_pos h]

theorem finish_events_not_cancelled (s : TransactionState)
    (h : s.isCancelled = false) :
    (finish s).events = s.events ++ s.tasks.map Event.taskCommit ++
      [Event.registryCommit] ++ [Event.onFinish, Event.onDestroy] := by
  unfold finish
  rw [if_neg (by simp [h])]

theorem finish_events_mono (s : TransactionState) (e : Event)
    (h : e ∈ s.events) : e ∈ (finish s).events := by
  unfold finish
  split_ifs
  · exact List.mem_append_left _ h
  · exact List.mem_append_left _ (List.mem_append_left _
      (List.mem_append_left _ h))

theorem finish_onFinish_mem (s : TransactionState) :
    Event.onFinish ∈ (finish s).events := by
  unfold finish
  split_ifs <;> simp

theorem finish_commitCount_cancelled (s : TransactionState)
    (h : s.isCancelled = true) : commitCount (finish s) = commitCount s := by
  unfold commitCount
  rw [finish_events_cancelled s h, List.countP_append]
  simp [Event.isTaskCommit]

theorem map_taskCommit_no_onFinish (ids : List Nat) :
    (ids.map Event.taskCommit).countP (fun e => e == Event.onFinish) = 0 := by
  rw [List.countP_eq_zero]
  intro e he
  rcases List.mem_map.mp he with ⟨i, _, rfl⟩
  simp

theorem finish_onFinishCount (s : TransactionState) :
    onFinishCount (finish s) = onFinishCount s + 1 := by
  unfold onFinishCount
  cases hc : s.isCancelled
  · rw [finish_events_not_cancelled s hc]
    simp [List.countP_append, map_taskCommit_no_onFinish]
  · rw [finish_events_cancelled s hc]
    simp [List.countP_append]

theorem addTask_flags (s : TransactionState) (id : Nat) :
    (addTask s id).isCancelled = s.isCancelled ∧
    (addTask s id).queueIdle = s.queueIdle := by
  unfold addTask
  dsimp only
  split_ifs
  · have h := finish_fields { s with tasks := s.tasks ++ [id] }
    exact ⟨h.2.2.2.2.1, h.2.2.2.2.2⟩
  · exact ⟨rfl, rfl⟩

theorem addTask_events_mono (s : TransactionState) (id : Nat) (e : Event)
    (h : e ∈ s.events) : e ∈ (addTask s id).events := by
  unfold addTask
  dsimp only
  split_ifs
  · exact finish_events_mono _ e h
  · exact h

theorem addTask_commitCount_cancelled (s : TransactionState) (id : Nat)
    (h : s.isCancelled = true) :
    commitCount (addTask s id) = commitCount s := by
  unfold addTask
  dsimp only
  split_ifs
  · exact finish_commitCount_cancelled _ h
  · rfl

theorem addTask_onFinish_of_idle (s : TransactionState) (id : Nat)
    (h : s.queueIdle = true) : Event.onFinish ∈ (addTask s id).events := by
  unfold addTask
  dsimp only
  rw [if_pos h]
  exact finish_onFinish_mem _

theorem foldl_addTask_flags : ∀ (ids : List Nat) (s : TransactionState),
    (ids.foldl addTask s).isCancelled = s.isCancelled ∧
    (ids.foldl addTask s).queueIdle = s.queueIdle
  | [], _ => ⟨rfl, rfl⟩
  | id :: rest, s => by
    rw [List.foldl_cons]
    have h1 := addTask_flags s id
    have h2 := foldl_addTask_flags rest (addTask s id)
    exact ⟨h2.1.trans h1.1, h2.2.trans h1.2⟩

theorem foldl_addTask_commitCount_cancelled :
    ∀ (ids : List Nat) (s : TransactionState), s.isCancelled = true →
    commitCount (ids.foldl addTask s) = commitCount s
  | [], _, _ => rfl
  | id :: rest, s, h => by
    rw [List.foldl_cons]
    have h1 : (addTask s id).isCancelled = true := (addTask_flags s id).1.trans h
    rw [foldl_addTask_commitCount_cancelled rest (addTask s id) h1]
    exact addTask_commitCount_cancelled s id h

theorem foldl_addTask_events_mono :
    ∀ (ids : List Nat) (s : TransactionState) (e : Event),
    e ∈ s.events → e ∈ (ids.foldl addTask s).events
  | [], _, _, h => h
  | id :: rest, s, e, h => by
    rw [List.foldl_cons]
    exact foldl_addTask_events_mono rest (addTask s id) e
      (addTask_events_mono s id e h)

theorem foldl_addTask_onFinish (ids : List Nat) (s : TransactionState)
    (hidle : s.queueIdle = true) (hne : ids ≠ []) :
    Event.onFinish ∈ (ids.foldl addTask s).events := by
  cases ids with
  | nil => exact absurd rfl hne
  | cons id rest =>
    rw [List.foldl_cons]
    exact foldl_addTask_events_mono rest (addTask s id) Event.onFinish
      (addTask_onFinish_of_idle s id hidle)

theorem install_cancelled (s : TransactionState) (hc : s.isCancelled = true)
    (hidle : s.queueIdle = true) (hne : s.packages ≠ []) :
    commitCount (install s) = commitCount s ∧
    Event.onFinish ∈ (install s).events := by
  unfold install
  constructor
  · exact foldl_addTask_commitCount_cancelled _ _ hc
  · refine foldl_addTask_onFinish _ _ hidle ?_
    simp only [ne_eq, List.range_eq_nil]
    simpa [List.length_eq_zero] using hne

theorem updateAll_cancelled (s : TransactionState) (hc : s.isCancelled = true)
    (hidle : s.queueIdle = true) :
    commitCount (updateAll s) = commitCount s ∧
    Event.onFinish ∈ (updateAll s).events := by
  unfold updateAll
  have hcore := foldl_resolveStep_core s.pending s
  have hev : (s.pending.foldl resolveStep s).events = s.events := hcore.2.1
  have hc1 : (s.pending.foldl resolveStep s).isCancelled = true :=
    hcore.2.2.1.trans hc
  have hidle1 : (s.pending.foldl resolveStep s).queueIdle = true :=
    hcore.2.2.2.2.1.trans hidle
  have hcc : commitCount (s.pending.foldl resolveStep s) = commitCount s := by
    unfold commitCount
    rw [hev]
  dsimp only
  split_ifs with hbranch
  · exact ⟨(finish_commitCount_cancelled _ hc1).trans hcc,
      finish_onFinish_mem _⟩
  · have hne : (s.pending.foldl resolveStep s).packages ≠ [] := by
      intro hcontra
      simp [hcontra] at hbranch
    have hinst := install_cancelled (s.pending.foldl resolveStep s) hc1 hidle1 hne
    exact ⟨hinst.1.trans hcc, hinst.2⟩

theorem onQueueDone_cancelled (s : TransactionState)
    (hc : s.isCancelled = true) (hidle : s.queueIdle = true) :
    commitCount (onQueueDone s) = commitCount s ∧
    Event.onFinish ∈ (onQueueDone s).events := by
  unfold onQueueDone
  split_ifs
  · exact updateAll_cancelled s hc hidle
  · exact ⟨finish_commitCount_cancelled s hc, finish_onFinish_mem s⟩

theorem updateAll_conflict (s : TransactionState)
    (h : (s.pending.foldl resolveStep s).hasConflicts = true) :
    updateAll s = finish (s.pending.foldl resolveStep s) := by
  unfold updateAll
  dsimp only
  split_ifs with hb
  · rfl
  · exact absurd (by rw [h, Bool.or_true]) hb

theorem ltSegs_irrefl : ∀ l, ltSegs l l = false
  | [] => rfl
  | a :: as => by simp [ltSegs, ltSegs_irrefl as]

theorem ltSegs_trans : ∀ a b c, ltSegs a b = true → ltSegs b c = true →
    ltSegs a c = true
  | [], [], _, h1, _ => by simp [ltSegs] at h1
  | [], _ :: _, [], _, h2 => by simp [ltSegs] at h2
  | [], _ :: _, _ :: _, _, _ => rfl
  | _ :: _, [], _, h1, _ => by simp [ltSegs] at h1
  | _ :: _, _ :: _, [], _, h2 => by simp [ltSegs] at h2
  | a :: as, b :: bs, c :: cs, h1, h2 => by
    simp only [ltSegs] at h1 h2 ⊢
    rcases Nat.lt_trichotomy a b with hab | hab | hab
    · rcases Nat.lt_trichotomy b c with hbc | hbc | hbc
      · simp [Nat.lt_trans hab hbc]
      · subst hbc; simp [hab]
      · simp [Nat.lt_asymm hbc, hbc] at h2
    · subst hab
      rcases Nat.lt_trichotomy a c with hac | hac | hac
      · simp [hac]
      · subst hac
        simp [Nat.lt_irrefl] at h1 h2 ⊢
        exact ltSegs_trans as bs cs h1 h2
      · simp [Nat.lt_asymm hac, hac] at h2
    · simp [Nat.lt_asymm hab, hab] at h1

theorem ltSegs_asymm (a b : List Nat) (h : ltSegs a b = true) :
    ltSegs b a = false := by
  cases hba : ltSegs b a with
  | false => rfl
  | true =>
    have := ltSegs_trans a b a h hba
    rw [ltSegs_irrefl] at this
    exact absurd this (by simp)

theorem versionBefore_trans {a b c : Version} (h1 : versionBefore a b)
    (h2 : versionBefore b c) : versionBefore a c :=
  ltSegs_trans _ _ _ h1 h2

theorem mem_insertVersion (v : Version) : ∀ (l : List Version) (y : Version),
    y ∈ insertVersion v l → y = v ∨ y ∈ l
  | [], y, h => by
    simp [insertVersion] at h
    exact Or.inl h
  | x :: xs, y, h => by
    simp only [insertVersion] at h
    split_ifs at h with h1 h2
    · rcases List.mem_cons.mp h with h | h
      · exact Or.inl h
      · exact Or.inr h
    · rcases List.mem_cons.mp h with h | h
      · exact Or.inr (h ▸ List.mem_cons_self x xs)
      · rcases mem_insertVersion v xs y h with h | h
        · exact Or.inl h
        · exact Or.inr (List.mem_cons_of_mem x h)
    · exact Or.inr h

theorem insertVersion_pairwise (v : Version) : ∀ (l : List Version),
    l.Pairwise versionBefore → (insertVersion v l).Pairwise versionBefore
  | [], _ => List.pairwise_singleton _ v
  | x :: xs, h => by
    rcases List.pairwise_cons.mp h with ⟨hx, hxs⟩
    simp only [insertVersion]
    split_ifs with h1 h2
    · refine List.Pairwise.cons ?_ h
      intro y hy
      rcases List.mem_cons.mp hy with rfl | hy
      · exact h1
      · exact versionBefore_trans h1 (hx y hy)
    · refine List.Pairwise.cons ?_ (insertVersion_pairwise v xs hxs)
      intro y hy
      rcases mem_insertVersion v xs y hy with rfl | hy
      · exact h2
      · exact hx y hy
    · exact h

theorem addVersion_pairwise (p : Package) (v : Version)
    (h : p.versions.Pairwise versionBefore) :
    (p.addVersion v).versions.Pairwise versionBefore := by
  unfold Package.addVersion
  split_ifs
  · exact h
  · exact insertVersion_pairwise v p.versions h

theorem foldl_addVersion_pairwise : ∀ (vs : List Version) (p : Package),
    p.versions.Pairwise versionBefore →
    ((vs.foldl Package.addVersion p).versions).Pairwise versionBefore
  | [], _, h => h
  | v :: rest, p, h =>
    foldl_addVersion_pairwise rest (p.addVersion v) (addVersion_pairwise p v h)

theorem lastOf_mem : ∀ (l : List Version) (x : Version), lastOf l = some x → x ∈ l
  | [], x, h => by simp [lastOf] at h
  | [v], x, h => by
    simp [lastOf] at h
    simp [h]
  | a :: b :: t, x, h => by
    have := lastOf_mem (b :: t) x (by simpa [lastOf] using h)
    exact List.mem_cons_of_mem a this

theorem lastOf_max : ∀ (l : List Version), l.Pairwise versionBefore →
    ∀ x, lastOf l = some x → ∀ y ∈ l, y = x ∨ versionBefore y x
  | [], _, x, h => by simp [lastOf] at h
  | [v], _, x, h => by
    simp [lastOf] at h
    subst h
    intro y hy
    simp at hy
    exact Or.inl hy
  | a :: b :: t, h, x, hx => by
    rcases List.pairwise_cons.mp h with ⟨ha, ht⟩
    have hx' : lastOf (b :: t) = some x := by simpa [lastOf] using hx
    intro y hy
    rcases List.mem_cons.mp hy with rfl | hy
    · exact Or.inr (ha x (lastOf_mem (b :: t) x hx'))
    · exact lastOf_max (b :: t) ht x hx' y hy

/-- Claim C3: for every Package built by `addVersion`, the version
container is kept sorted ascending by the numeric-segment version-name
comparison, and `lastVersion` (when the container is non-empty) is a
member that no other version exceeds under that comparison. -/
theorem C3_lastVersion_greatest (t : PackageType) (nm : String) (cid : Nat)
    (vs : List Version) :
    ((vs.foldl Package.addVersion (Package.mk t nm cid [])).versions).Pairwise
      versionBefore ∧
    ∀ last, (vs.foldl Package.addVersion (Package.mk t nm cid [])).lastVersion =
        some last →
      last ∈ (vs.foldl Package.addVersion (Package.mk t nm cid [])).versions ∧
      ∀ v ∈ (vs.foldl Package.addVersion (Package.mk t nm cid [])).versions,
        VersionName.lt last.name v.name = false := by
  have hp := foldl_addVersion_pairwise vs (Package.mk t nm cid [])
    (List.Pairwise.nil)
  refine ⟨hp, ?_⟩
  intro last hlast
  refine ⟨lastOf_mem _ _ hlast, ?_⟩
  intro v hv
  rcases lastOf_max _ hp last hlast v hv with rfl | hlt
  · exact ltSegs_irrefl _
  · exact ltSegs_asymm _ _ hlt

/-- Claim C3 witness: among versions named "1.9", "1.10" and "0.5" the
last version is "1.10" (numeric-segment order, not string order). -/
theorem C3_witness :
    (([⟨"1.9", [⟨"https://x"⟩]⟩, ⟨"1.10", [⟨"https://x"⟩]⟩,
        ⟨"0.5", [⟨"https://x"⟩]⟩] : List Version).foldl Package.addVersion
        (Package.mk PackageType.ScriptType "pkg" 0 [])).lastVersion =
      some ⟨"1.10", [⟨"https://x"⟩]⟩ ∧
    ((⟨"1.10", [⟨"https://x"⟩]⟩ : Version) ∈
      (([⟨"1.9", [⟨"https://x"⟩]⟩, ⟨"1.10", [⟨"https://x"⟩]⟩,
          ⟨"0.5", [⟨"https://x"⟩]⟩] : List Version).foldl Package.addVersion
          (Package.mk PackageType.ScriptType "pkg" 0 [])).versions ∧
      ∀ v ∈ (([⟨"1.9", [⟨"https://x"⟩]⟩, ⟨"1.10", [⟨"https://x"⟩]⟩,
          ⟨"0.5", [⟨"https://x"⟩]⟩] : List Version).foldl Package.addVersion
          (Package.mk PackageType.ScriptType "pkg" 0 [])).versions,
        VersionName.lt (Version.name ⟨"1.10", [⟨"https://x"⟩]⟩) v.name = false) :=
  ⟨by decide,
   (C3_lastVersion_greatest PackageType.ScriptType "pkg" 0
      [⟨"1.9", [⟨"https://x"⟩]⟩, ⟨"1.10", [⟨"https://x"⟩]⟩,
        ⟨"0.5", [⟨"https://x"⟩]⟩]).2 ⟨"1.10", [⟨"https://x"⟩]⟩ (by decide)⟩

/-- Claim C7: adding a Version with zero sources leaves the version set
unchanged; a Package that only ever received a zero-source Version has an
empty version set and no last version. -/
theorem C7_zero_source_version (p : Package) (v : Version)
    (h : v.sources = []) :
    p.addVersion v = p ∧
    ∀ (t : PackageType) (nm : String) (cid : Nat),
      ((Package.mk t nm cid []).addVersion v).versions = [] ∧
      ((Package.mk t nm cid []).addVersion v).lastVersion = none := by
  have hp : ∀ q : Package, q.addVersion v = q := by
    intro q
    unfold Package.addVersion
    simp [h]
  refine ⟨hp p, ?_⟩
  intro t nm cid
  rw [hp]
  exact ⟨rfl, rfl⟩

/-- Claim C7 witness: the zero-source version "1" is dropped and the
resulting package has no versions and no last version. -/
theorem C7_witness :
    (⟨"1", []⟩ : Version).sources = [] ∧
    ((Package.mk PackageType.ScriptType "a" 0 []).addVersion ⟨"1", []⟩ =
        Package.mk PackageType.ScriptType "a" 0 [] ∧
      ∀ (t : PackageType) (nm : String) (cid : Nat),
        ((Package.mk t nm cid []).addVersion ⟨"1", []⟩).versions = [] ∧
        ((Package.mk t nm cid []).addVersion ⟨"1", []⟩).lastVersion = none) :=
  ⟨rfl, C7_zero_source_version (Package.mk PackageType.ScriptType "a" 0 [])
    ⟨"1", []⟩ rfl⟩

/-- Claim C5: a package of unknown type, or with zero versions, whose
back-reference is the target category is silently discarded by
`Category::addPackage` (no error, category unchanged); a category with
zero packages whose back-reference is the target index is silently
discarded by `RemoteIndex::addCategory` (no error, index unchanged). -/
theorem C5_silent_drops (c : Category) (pkg : Package) (ri : RemoteIndex)
    (cat : Category) :
    (pkg.categoryId = c.id → pkg.type = PackageType.UnknownType →
      c.addPackage pkg = Except.ok c) ∧
    (pkg.categoryId = c.id → pkg.versions = [] →
      c.addPackage pkg = Except.ok c) ∧
    (cat.indexId = ri.id → cat.packages = [] →
      ri.addCategory cat = Except.ok ri) := by
  refine ⟨?_, ?_, ?_⟩ <;> intro h1 h2 <;>
    simp [Category.addPackage, RemoteIndex.addCategory, h1, h2]

/-- Claim C5 witness: a concrete unknown-type package, a concrete
zero-version package and a concrete empty category are each discarded
without an error, leaving their containers unchanged. -/
theorem C5_witness :
    ((Package.mk PackageType.UnknownType "u" 4 [⟨"1", [⟨"https://x"⟩]⟩]).categoryId =
        (Category.mk 4 "Cat" 0 []).id ∧
      (Category.mk 4 "Cat" 0 []).addPackage
        (Package.mk PackageType.UnknownType "u" 4 [⟨"1", [⟨"https://x"⟩]⟩]) =
        Except.ok (Category.mk 4 "Cat" 0 [])) ∧
    ((Category.mk 4 "Cat" 0 []).addPackage
        (Package.mk PackageType.ScriptType "s" 4 []) =
        Except.ok (Category.mk 4 "Cat" 0 [])) ∧
    ((RemoteIndex.mk 2 "I" [] [] []).addCategory (Category.mk 9 "C" 2 []) =
        Except.ok (RemoteIndex.mk 2 "I" [] [] [])) :=
  ⟨⟨rfl,
    (C5_silent_drops (Category.mk 4 "Cat" 0 [])
      (Package.mk PackageType.UnknownType "u" 4 [⟨"1", [⟨"https://x"⟩]⟩])
      (RemoteIndex.mk 2 "I" [] [] []) (Category.mk 9 "C" 2 [])).1 rfl rfl⟩,
   (C5_silent_drops (Category.mk 4 "Cat" 0 [])
      (Package.mk PackageType.ScriptType "s" 4 [])
      (RemoteIndex.mk 2 "I" [] [] []) (Category.mk 9 "C" 2 [])).2.1 rfl rfl,
   (C5_silent_drops (Category.mk 4 "Cat" 0 [])
      (Package.mk PackageType.ScriptType "s" 4 [])
      (RemoteIndex.mk 2 "I" [] [] []) (Category.mk 9 "C" 2 [])).2.2 rfl rfl⟩

/-- Claim C8 counterexample: the URL `httpmalware://evil.example/` has
scheme `httpmalware`, which is on no safe scheme allow-list (it is
neither `http` nor `https`), yet `addLink` retains the link because the
URL merely starts with the literal text `"http"`. -/
theorem C8_counterexample :
    ((RemoteIndex.mk 0 "Index" [] [] []).addLink LinkType.WebsiteLink
        (Link.mk "Evil" "httpmalware://evil.example/")).links =
      [(LinkType.WebsiteLink, Link.mk "Evil" "httpmalware://evil.example/")] ∧
    urlScheme "httpmalware://evil.example/" = "httpmalware" ∧
    ¬ ("httpmalware" ∈ (["http", "https"] : List String)) := by
  refine ⟨by decide, by decide, by decide⟩

/-- Claim C8 (amended): a link is retained by `RemoteIndex::addLink` if
and only if its URL starts with the literal string `"http"` — a prefix
check, not a scheme allow-list membership test. -/
theorem C8_link_prefix_filter (ri : RemoteIndex) (t : LinkType) (l : Link)
    (hfresh : (t, l) ∉ ri.links) :
    (t, l) ∈ (ri.addLink t l).links ↔ strStartsWith l.url "http" = true := by
  unfold RemoteIndex.addLink
  split_ifs with h
  · simp [h]
  · simp [hfresh, h]

/-- Claim C8 witness: a fresh `https` link on an empty index is retained
and indeed starts with `"http"`. -/
theorem C8_witness :
    ((LinkType.WebsiteLink, Link.mk "Home" "https://example.com/") ∉
      (RemoteIndex.mk 0 "Index" [] [] []).links) ∧
    ((LinkType.WebsiteLink, Link.mk "Home" "https://example.com/") ∈
        ((RemoteIndex.mk 0 "Index" [] [] []).addLink LinkType.WebsiteLink
          (Link.mk "Home" "https://example.com/")).links ↔
      strStartsWith (Link.mk "Home" "https://example.com/").url "http" = true) :=
  ⟨by decide,
   C8_link_prefix_filter (RemoteIndex.mk 0 "Index" [] [] [])
     LinkType.WebsiteLink (Link.mk "Home" "https://example.com/") (by decide)⟩

/-- Claim C10: insertion enforces parent consistency — `addCategory`
errors when the category's back-reference is a different index,
`addPackage` errors when the package's back-reference is a different
category, and each successful insertion preserves the invariant that
every stored child's back-reference equals its container. -/
theorem C10_parent_consistency (ri : RemoteIndex) (cat : Category)
    (c : Category) (pkg : Package) :
    (cat.indexId ≠ ri.id →
      ri.addCategory cat = Except.error "category belongs to another index") ∧
    (pkg.categoryId ≠ c.id →
      c.addPackage pkg = Except.error "package belongs to another category") ∧
    (∀ ri', ri.addCategory cat = Except.ok ri' →
      ri'.id = ri.id ∧
      ((∀ c' ∈ ri.categories, c'.indexId = ri.id) →
        ∀ c' ∈ ri'.categories, c'.indexId = ri'.id)) ∧
    (∀ c', c.addPackage pkg = Except.ok c' →
      c'.id = c.id ∧
      ((∀ q ∈ c.packages, q.categoryId = c.id) →
        ∀ q ∈ c'.packages, q.categoryId = c'.id)) := by
  refine ⟨?_, ?_, ?_, ?_⟩
  · intro h
    simp [RemoteIndex.addCategory, h]
  · intro h
    simp [Category.addPackage, h]
  · intro ri' h
    unfold RemoteIndex.addCategory at h
    split_ifs at h with h1 h2
    · simp at h
      subst h
      exact ⟨rfl, fun hinv => hinv⟩
    · simp at h
      subst h
      refine ⟨rfl, fun hinv c' hc' => ?_⟩
      simp at hc'
      rcases hc' with hc' | rfl
      · exact hinv c' hc'
      · exact not_not.mp h1
  · intro c' h
    unfold Category.addPackage at h
    split_ifs at h with h1 h2 h3
    · simp at h
      subst h
      exact ⟨rfl, fun hinv => hinv⟩
    · simp at h
      subst h
      exact ⟨rfl, fun hinv => hinv⟩
    · simp at h
      subst h
      refine ⟨rfl, fun hinv q hq => ?_⟩
      simp at hq
      rcases hq with hq | rfl
      · exact hinv q hq
      · exact not_not.mp h1

/-- Claim C10 witness: a category pointing at index 2 is rejected by
index 1 with an error; a package pointing at category 9 is rejected by
category 3; a matching insertion succeeds and every stored child then
points back at its container. -/
theorem C10_witness :
    ((RemoteIndex.mk 1 "I" [] [] []).addCategory
        (Category.mk 5 "C" 2 [⟨PackageType.ScriptType, "p", 5,
          [⟨"1", [⟨"https://x"⟩]⟩]⟩]) =
      Except.error "category belongs to another index") ∧
    ((Category.mk 3 "C" 1 []).addPackage
        (Package.mk PackageType.ScriptType "p" 9 [⟨"1", [⟨"https://x"⟩]⟩]) =
      Except.error "package belongs to another category") ∧
    ((RemoteIndex.mk 1 "I" [] [] []).addCategory
        (Category.mk 5 "C" 1 [⟨PackageType.ScriptType, "p", 5,
          [⟨"1", [⟨"https://x"⟩]⟩]⟩]) =
      Except.ok (RemoteIndex.mk 1 "I"
        [Category.mk 5 "C" 1 [⟨PackageType.ScriptType, "p", 5,
          [⟨"1", [⟨"https://x"⟩]⟩]⟩]]
        [⟨PackageType.ScriptType, "p", 5, [⟨"1", [⟨"https://x"⟩]⟩]⟩] []) ∧
      ∀ c' ∈ (RemoteIndex.mk 1 "I"
        [Category.mk 5 "C" 1 [⟨PackageType.ScriptType, "p", 5,
          [⟨"1", [⟨"https://x"⟩]⟩]⟩]]
        [⟨PackageType.ScriptType, "p", 5, [⟨"1", [⟨"https://x"⟩]⟩]⟩] []).categories,
        c'.indexId = 1) := by
  refine ⟨?_, ?_, ?_⟩
  · exact (C10_parent_consistency (RemoteIndex.mk 1 "I" [] [] [])
      (Category.mk 5 "C" 2 [⟨PackageType.ScriptType, "p", 5,
        [⟨"1", [⟨"https://x"⟩]⟩]⟩])
      (Category.mk 3 "C" 1 [])
      (Package.mk PackageType.ScriptType "p" 9 [⟨"1", [⟨"https://x"⟩]⟩])).1
      (by decide)
  · exact (C10_parent_consistency (RemoteIndex.mk 1 "I" [] [] [])
      (Category.mk 5 "C" 2 [⟨PackageType.ScriptType, "p", 5,
        [⟨"1", [⟨"https://x"⟩]⟩]⟩])
      (Category.mk 3 "C" 1 [])
      (Package.mk PackageType.ScriptType "p" 9 [⟨"1", [⟨"https://x"⟩]⟩])).2.1
      (by decide)
  · refine ⟨rfl, ?_⟩
    have h := (C10_parent_consistency (RemoteIndex.mk 1 "I" [] [] [])
      (Category.mk 5 "C" 1 [⟨PackageType.ScriptType, "p", 5,
        [⟨"1", [⟨"https://x"⟩]⟩]⟩])
      (Category.mk 3 "C" 1 [])
      (Package.mk PackageType.ScriptType "p" 9 [⟨"1", [⟨"https://x"⟩]⟩])).2.2.1
      (RemoteIndex.mk 1 "I"
        [Category.mk 5 "C" 1 [⟨PackageType.ScriptType, "p", 5,
          [⟨"1", [⟨"https://x"⟩]⟩]⟩]]
        [⟨PackageType.ScriptType, "p", 5, [⟨"1", [⟨"https://x"⟩]⟩]⟩] []) rfl
    exact h.2 (by simp)

theorem exOk_iff {ε α : Type} (e : Except ε α) :
    exOk e = true ↔ ∃ a, e = Except.ok a := by
  cases e <;> simp [exOk]

theorem exOk_ok {ε α : Type} (a : α) :
    exOk (Except.ok a : Except ε α) = true := rfl

theorem exOk_error {ε α : Type} (e : ε) :
    exOk (Except.error e : Except ε α) = false := rfl

theorem addVersion_categoryId (p : Package) (v : Version) :
    (p.addVersion v).categoryId = p.categoryId := by
  unfold Package.addVersion
  split_ifs <;> rfl

theorem loadSources_exOk : ∀ (l : List XmlSource),
    exOk (loadSources l) = l.all srcOk
  | [] => rfl
  | s :: rest => by
    have ih := loadSources_exOk rest
    simp only [loadSources, List.all_cons]
    cases hu : s.url with
    | none => simp [exOk, srcOk, hu]
    | some u =>
      cases hr : loadSources rest with
      | error e =>
        rw [hr] at ih
        simp [exOk_ok, exOk_error, srcOk, hu, ← ih]
      | ok tail =>
        rw [hr] at ih
        simp [exOk_ok, exOk_error, srcOk, hu, ← ih]

theorem loadVersionsInto_exOk : ∀ (vs : List XmlVersion) (p : Package),
    exOk (loadVersionsInto p vs) = vs.all verOk
  | [], _ => rfl
  | v :: rest, p => by
    have hs := loadSources_exOk v.sources
    simp only [loadVersionsInto, List.all_cons]
    cases hr : loadSources v.sources with
    | error e =>
      rw [hr] at hs
      simp [exOk_ok, exOk_error, verOk, ← hs]
    | ok srcs =>
      rw [hr] at hs
      dsimp only
      rw [loadVersionsInto_exOk rest]
      simp [verOk, ← hs, exOk_ok]

theorem loadVersionsInto_categoryId :
    ∀ (vs : List XmlVersion) (p q : Package),
    loadVersionsInto p vs = Except.ok q → q.categoryId = p.categoryId
  | [], p, q, h => by
    simp only [loadVersionsInto, Except.ok.injEq] at h
    rw [← h]
  | v :: rest, p, q, h => by
    simp only [loadVersionsInto] at h
    cases hr : loadSources v.sources with
    | error e =>
      rw [hr] at h
      simp at h
    | ok srcs =>
      rw [hr] at h
      have hrec := loadVersionsInto_categoryId rest (p.addVersion ⟨v.name, srcs⟩) q h
      rw [hrec, addVersion_categoryId]

theorem addPackage_ok_of_match (c : Category) (pkg : Package)
    (h : pkg.categoryId = c.id) :
    ∃ c2, c.addPackage pkg = Except.ok c2 ∧ c2.id = c.id ∧
      c2.indexId = c.indexId := by
  unfold Category.addPackage
  rw [if_neg (by simp [h])]
  split_ifs <;> exact ⟨_, rfl, rfl, rfl⟩

theorem loadPackagesInto_exOk : ∀ (ps : List XmlPackage) (c : Category),
    exOk (loadPackagesInto c ps) = ps.all pkgOk
  | [], _ => rfl
  | xp :: rest, c => by
    have hv := loadVersionsInto_exOk xp.versions
      (Package.mk (Package.convertType xp.typeStr) xp.name c.id [])
    simp only [loadPackagesInto, List.all_cons]
    cases hr : loadVersionsInto
        (Package.mk (Package.convertType xp.typeStr) xp.name c.id [])
        xp.versions with
    | error e =>
      rw [hr] at hv
      simp [exOk_ok, exOk_error, pkgOk, ← hv]
    | ok pkg =>
      rw [hr] at hv
      obtain ⟨c2, hc2, _, _⟩ := addPackage_ok_of_match c pkg
        (loadVersionsInto_categoryId xp.versions _ pkg hr)
      dsimp only
      rw [hc2]
      dsimp only
      rw [loadPackagesInto_exOk rest c2]
      simp [pkgOk, ← hv, exOk_ok]

theorem loadPackagesInto_ids : ∀ (ps : List XmlPackage) (c c2 : Category),
    loadPackagesInto c ps = Except.ok c2 →
    c2.indexId = c.indexId ∧ c2.id = c.id
  | [], c, c2, h => by
    simp only [loadPackagesInto, Except.ok.injEq] at h
    rw [← h]
    exact ⟨rfl, rfl⟩
  | xp :: rest, c, c2, h => by
    simp only [loadPackagesInto] at h
    cases hr : loadVersionsInto
        (Package.mk (Package.convertType xp.typeStr) xp.name c.id [])
        xp.versions with
    | error e =>
      rw [hr] at h
      simp at h
    | ok pkg =>
      rw [hr] at h
      obtain ⟨cmid, hcm, hid, hidx⟩ := addPackage_ok_of_match c pkg
        (loadVersionsInto_categoryId xp.versions _ pkg hr)
      dsimp only at h
      rw [hcm] at h
      dsimp only at h
      have h2 : loadPackagesInto cmid rest = Except.ok c2 := h
      have hrec := loadPackagesInto_ids rest cmid c2 h2
      exact ⟨hrec.1.trans hidx, hrec.2.trans hid⟩

theorem addCategory_ok_of_match (ri : RemoteIndex) (cat : Category)
    (h : cat.indexId = ri.id) :
    ∃ ri2, ri.addCategory cat = Except.ok ri2 ∧ ri2.id = ri.id := by
  unfold RemoteIndex.addCategory
  rw [if_neg (by simp [h])]
  split_ifs <;> exact ⟨_, rfl, rfl⟩

theorem loadCategoriesInto_exOk :
    ∀ (cs : List XmlCategory) (ri : RemoteIndex),
    exOk (loadCategoriesInto ri cs) = cs.all catOk
  | [], _ => rfl
  | xc :: rest, ri => by
    have hp := loadPackagesInto_exOk xc.packages (Category.mk 0 xc.name ri.id [])
    simp only [loadCategoriesInto, List.all_cons]
    cases hr : loadPackagesInto (Category.mk 0 xc.name ri.id [])
        xc.packages with
    | error e =>
      rw [hr] at hp
      simp [exOk_ok, exOk_error, catOk, ← hp]
    | ok cat =>
      rw [hr] at hp
      have hidx : cat.indexId = ri.id :=
        (loadPackagesInto_ids xc.packages _ cat hr).1
      obtain ⟨ri2, hri2, _⟩ := addCategory_ok_of_match ri cat hidx
      dsimp only
      rw [hri2]
      dsimp only
      rw [loadCategoriesInto_exOk rest ri2]
      simp [catOk, ← hp, exOk_ok]

/-- Claim C6: index parsing produces an index exactly when the root tag
is `index`, the version attribute is present with supported value 1, and
every Source carries its mandatory URL; a root tag mismatch, a
missing/zero/unsupported version and a URL-less Source (and only these)
fail the parse with an error. -/
theorem C6_parse_failure_cases (name : String) (root : XmlIndex)
    (hname : name ≠ "") :
    (∃ ri, RemoteIndex.load name root = Except.ok ri) ↔
      (root.tag = "index" ∧ root.versionAttr.getD 0 = 1 ∧
        rootOk root = true) := by
  rw [← exOk_iff]
  unfold RemoteIndex.load
  dsimp only
  by_cases htag : root.tag = "index"
  · rw [if_neg (by simp [htag])]
    by_cases hz : root.versionAttr.getD 0 = 0
    · rw [if_pos hz]
      simp [exOk, htag, hz]
    · rw [if_neg hz]
      by_cases h1 : root.versionAttr.getD 0 = 1
      · rw [if_pos h1]
        unfold loadV1
        rw [if_neg hname, loadCategoriesInto_exOk]
        simp [htag, h1, rootOk]
      · rw [if_neg h1]
        simp [exOk, htag, h1]
  · rw [if_pos htag]
    simp [exOk, htag]

/-- Claim C6 witness: a well-formed one-category, one-package,
one-version, one-source document with root tag `index` and version 1
parses successfully. -/
theorem C6_witness :
    ("Remote" : String) ≠ "" ∧
    ∃ ri, RemoteIndex.load "Remote"
      (XmlIndex.mk "index" (some 1)
        [XmlCategory.mk "Cat" [XmlPackage.mk "script" "pkg"
          [XmlVersion.mk "1.0" [XmlSource.mk (some "https://x")]]]]) =
      Except.ok ri :=
  ⟨by decide,
   (C6_parse_failure_cases "Remote"
      (XmlIndex.mk "index" (some 1)
        [XmlCategory.mk "Cat" [XmlPackage.mk "script" "pkg"
          [XmlVersion.mk "1.0" [XmlSource.mk (some "https://x")]]]])
      (by decide)).mpr ⟨rfl, rfl, rfl⟩⟩

/-- Claim C1: when one resolution pass sees a relative path claimed by
two different packages, the transaction's conflict flag is set, a
conflict error for that path is recorded, the Install step is never
entered (no task is created), and the run goes straight to finish: the
whole trace is the registry commit of the empty batch followed by
`onFinish` and `onDestroy`, with no task commit and hence no filesystem
write for any package. -/
theorem C1_conflicts_skip_install (pending : List ResolvedPackage)
    (path : String) (h : 2 ≤ claimCount path pending) :
    (updateAll (initialState pending)).hasConflicts = true ∧
    conflictError path ∈ (updateAll (initialState pending)).errors ∧
    (updateAll (initialState pending)).step = Step.Synchronize ∧
    (updateAll (initialState pending)).tasks = [] ∧
    (updateAll (initialState pending)).events =
      [Event.registryCommit, Event.onFinish, Event.onDestroy] := by
  have hhit := foldl_resolveStep_hit_two (initialState pending).pending
    (initialState pending) path h
  have hcore := foldl_resolveStep_core (initialState pending).pending
    (initialState pending)
  rw [updateAll_conflict (initialState pending) hhit.2]
  have hf := finish_fields ((initialState pending).pending.foldl resolveStep
    (initialState pending))
  refine ⟨?_, ?_, ?_, ?_, ?_⟩
  · rw [hf.2.1]
    exact hhit.2
  · rw [hf.1]
    exact hhit.1
  · rw [hf.2.2.1]
    exact hcore.2.2.2.1
  · rw [hf.2.2.2.1]
    exact hcore.1
  · rw [finish_events_not_cancelled _ hcore.2.2.1, hcore.2.1, hcore.1]
    rfl

/-- Claim C1 witness: two packages both claiming `Scripts/foo.lua` set
the conflict flag, record the conflict error, skip the Install step and
finish with no task commit. -/
theorem C1_witness :
    2 ≤ claimCount "Scripts/foo.lua"
      [ResolvedPackage.mk ["Scripts/foo.lua"] RegStatus.Uninstalled false,
       ResolvedPackage.mk ["Scripts/foo.lua"] RegStatus.Uninstalled false] ∧
    ((updateAll (initialState
        [ResolvedPackage.mk ["Scripts/foo.lua"] RegStatus.Uninstalled false,
         ResolvedPackage.mk ["Scripts/foo.lua"] RegStatus.Uninstalled false])).hasConflicts = true ∧
      conflictError "Scripts/foo.lua" ∈ (updateAll (initialState
        [ResolvedPackage.mk ["Scripts/foo.lua"] RegStatus.Uninstalled false,
         ResolvedPackage.mk ["Scripts/foo.lua"] RegStatus.Uninstalled false])).errors ∧
      (updateAll (initialState
        [ResolvedPackage.mk ["Scripts/foo.lua"] RegStatus.Uninstalled false,
         ResolvedPackage.mk ["Scripts/foo.lua"] RegStatus.Uninstalled false])).step = Step.Synchronize ∧
      (updateAll (initialState
        [ResolvedPackage.mk ["Scripts/foo.lua"] RegStatus.Uninstalled false,
         ResolvedPackage.mk ["Scripts/foo.lua"] RegStatus.Uninstalled false])).tasks = [] ∧
      (updateAll (initialState
        [ResolvedPackage.mk ["Scripts/foo.lua"] RegStatus.Uninstalled false,
         ResolvedPackage.mk ["Scripts/foo.lua"] RegStatus.Uninstalled false])).events =
        [Event.registryCommit, Event.onFinish, Event.onDestroy]) :=
  ⟨by decide,
   C1_conflicts_skip_install
     [ResolvedPackage.mk ["Scripts/foo.lua"] RegStatus.Uninstalled false,
      ResolvedPackage.mk ["Scripts/foo.lua"] RegStatus.Uninstalled false]
     "Scripts/foo.lua" (by decide)⟩

/-- Claim C2 counterexample: `Transaction::finish` has no idempotence
guard, so with an idle queue two `addTask` calls reach `finish` twice:
over the transaction's lifetime the `onFinish` observer fires twice and
task 0 is committed twice, refuting "exactly once ... regardless of how
many times finish() becomes reachable". -/
theorem C2_counterexample :
    onFinishCount (addTask (addTask (initialState []) 0) 1) = 2 ∧
    (addTask (addTask (initialState []) 0) 1).events.countP
      (fun e => e == Event.taskCommit 0) = 2 := by
  constructor <;> rfl

/-- Claim C2 (amended): each individual `finish()` call commits every
task in creation order then the Registry once when the transaction is
not cancelled, commits nothing when cancelled, and fires `onFinish` then
`onDestroy`; but `finish()` is not idempotent-guarded: every `addTask`
call made while the download queue is idle reaches `finish()` again and
fires the observers once more. -/
theorem C2_finish_per_call (s : TransactionState) (id : Nat) :
    (s.isCancelled = false →
      (finish s).events = s.events ++ s.tasks.map Event.taskCommit ++
        [Event.registryCommit] ++ [Event.onFinish, Event.onDestroy]) ∧
    (s.isCancelled = true →
      (finish s).events = s.events ++ [Event.onFinish, Event.onDestroy]) ∧
    (s.queueIdle = true →
      onFinishCount (addTask s id) = onFinishCount s + 1) := by
  refine ⟨finish_events_not_cancelled s, finish_events_cancelled s, ?_⟩
  intro hidle
  unfold addTask
  dsimp only
  rw [if_pos hidle, finish_onFinishCount]
  rfl

/-- Claim C2 witness: at the fresh idle state, a non-cancelled finish
emits the commit trace and the observers, a cancelled state's finish
commits nothing, and one idle addTask fires onFinish once more. -/
theorem C2_witness :
    ((initialState []).isCancelled = false ∧
      (finish (initialState [])).events =
        (initialState []).events ++
          (initialState []).tasks.map Event.taskCommit ++
          [Event.registryCommit] ++ [Event.onFinish, Event.onDestroy]) ∧
    ((TransactionState.mk Step.Install true false [] [] [] [] true [] []).isCancelled = true ∧
      (finish (TransactionState.mk Step.Install true false [] [] [] [] true [] [])).events =
        (TransactionState.mk Step.Install true false [] [] [] [] true [] []).events ++
          [Event.onFinish, Event.onDestroy]) ∧
    ((initialState []).queueIdle = true ∧
      onFinishCount (addTask (initialState []) 0) =
        onFinishCount (initialState []) + 1) :=
  ⟨⟨rfl, (C2_finish_per_call (initialState []) 0).1 rfl⟩,
   ⟨rfl, (C2_finish_per_call
      (TransactionState.mk Step.Install true false [] [] [] [] true [] []) 0).2.1 rfl⟩,
   ⟨rfl, (C2_finish_per_call (initialState []) 0).2.2 rfl⟩⟩

/-- Claim C4: `cancel()` sets the cancelled flag, rolls back every task
created so far, and then either finishes immediately (idle queue,
committing nothing since the flag is set) or emits a queue abort and
defers finishing; once cancelled, the queue-drain callback still reaches
finish (firing `onFinish`) but commits no task. -/
theorem C4_cancel (s : TransactionState) :
    (cancel s).isCancelled = true ∧
    (∀ id ∈ s.tasks, Event.taskRollback id ∈ (cancel s).events) ∧
    (s.queueIdle = true → (cancel s).events =
      s.events ++ s.tasks.map Event.taskRollback ++
        [Event.onFinish, Event.onDestroy]) ∧
    (s.queueIdle = false → (cancel s).events =
      s.events ++ s.tasks.map Event.taskRollback ++ [Event.queueAbort]) ∧
    (∀ s', s'.isCancelled = true → s'.queueIdle = true →
      commitCount (onQueueDone s') = commitCount s' ∧
      Event.onFinish ∈ (onQueueDone s').events) := by
  refine ⟨?_, ?_, ?_, ?_, fun s' hc hi => onQueueDone_cancelled s' hc hi⟩
  · unfold cancel
    dsimp only
    split_ifs
    · exact (finish_fields _).2.2.2.2.1
    · rfl
  · intro id hid
    unfold cancel
    dsimp only
    have hmem : Event.taskRollback id ∈
        s.events ++ s.tasks.map Event.taskRollback :=
      List.mem_append_right _ (List.mem_map_of_mem Event.taskRollback hid)
    split_ifs
    · exact finish_events_mono _ _ hmem
    · exact List.mem_append_left _ hmem
  · intro hidle
    unfold cancel
    dsimp only
    rw [if_pos hidle]
    exact finish_events_cancelled _ rfl
  · intro hbusy
    unfold cancel
    dsimp only
    rw [if_neg (by rw [hbusy]; simp)]

/-- Claim C4 witness: cancelling with an idle queue rolls back task 7 and
finishes at once without committing; with a busy queue it emits the
queue abort instead; a cancelled drained state's drain callback fires
onFinish and commits nothing. -/
theorem C4_witness :
    (cancel (TransactionState.mk Step.Unknown false false [] [] [] [7] true [] [])).isCancelled = true ∧
    Event.taskRollback 7 ∈
      (cancel (TransactionState.mk Step.Unknown false false [] [] [] [7] true [] [])).events ∧
    (cancel (TransactionState.mk Step.Unknown false false [] [] [] [7] true [] [])).events =
      (TransactionState.mk Step.Unknown false false [] [] [] [7] true [] []).events ++
        (TransactionState.mk Step.Unknown false false [] [] [] [7] true [] []).tasks.map
          Event.taskRollback ++ [Event.onFinish, Event.onDestroy] ∧
    (cancel (TransactionState.mk Step.Unknown false false [] [] [] [7] false [] [])).events =
      (TransactionState.mk Step.Unknown false false [] [] [] [7] false [] []).events ++
        (TransactionState.mk Step.Unknown false false [] [] [] [7] false [] []).tasks.map
          Event.taskRollback ++ [Event.queueAbort] ∧
    (commitCount (onQueueDone
        (TransactionState.mk Step.Install true false [] [] [] [] true [] [])) =
      commitCount (TransactionState.mk Step.Install true false [] [] [] [] true [] []) ∧
      Event.onFinish ∈ (onQueueDone
        (TransactionState.mk Step.Install true false [] [] [] [] true [] [])).events) :=
  ⟨(C4_cancel (TransactionState.mk Step.Unknown false false [] [] [] [7] true [] [])).1,
   (C4_cancel (TransactionState.mk Step.Unknown false false [] [] [] [7] true [] [])).2.1
     7 (by decide),
   (C4_cancel (TransactionState.mk Step.Unknown false false [] [] [] [7] true [] [])).2.2.1
     rfl,
   (C4_cancel (TransactionState.mk Step.Unknown false false [] [] [] [7] false [] [])).2.2.2.1
     rfl,
   (C4_cancel (TransactionState.mk Step.Unknown false false [] [] [] [7] true [] [])).2.2.2.2
     (TransactionState.mk Step.Install true false [] [] [] [] true [] []) rfl rfl⟩

/-- Claim C9: a Download already marked aborted when a worker invokes
`run()` finishes immediately in the terminal Aborted state and performs
no network transfer (contents and transfer flag untouched). -/
theorem C9_aborted_run (dl : Download) (transfer : TransferOutcome)
    (abortedDuring : Bool) (h : dl.aborted = true) :
    (dl.run transfer abortedDuring).state = DownloadState.Aborted ∧
    (dl.run transfer abortedDuring).networkPerformed = dl.networkPerformed ∧
    (dl.run transfer abortedDuring).contents = dl.contents := by
  unfold Download.run
  rw [if_pos h]
  exact ⟨rfl, rfl, rfl⟩

/-- Claim C9 witness: an aborted idle download run against an available
transfer finishes Aborted with no transfer performed. -/
theorem C9_witness :
    (Download.mk "idx" "https://x" true DownloadState.Idle "" "" false).aborted = true ∧
    (((Download.mk "idx" "https://x" true DownloadState.Idle "" "" false).run
        (TransferOutcome.ok "data") false).state = DownloadState.Aborted ∧
      ((Download.mk "idx" "https://x" true DownloadState.Idle "" "" false).run
        (TransferOutcome.ok "data") false).networkPerformed = false ∧
      ((Download.mk "idx" "https://x" true DownloadState.Idle "" "" false).run
        (TransferOutcome.ok "data") false).contents = "") :=
  ⟨rfl, C9_aborted_run (Download.mk "idx" "https://x" true DownloadState.Idle "" "" false)
    (TransferOutcome.ok "data") false rfl⟩

end ReaPack
